import Mathlib

/-!
Verification development for the `sorry-tracker` tool (`src/issues.py`).

The Python source is shallowly embedded below.  Strings are modelled as
`List Char` (one entry per Unicode code point, matching Python's `str`,
whose `len` counts code points).  Each definition's doc comment names the
source function and lines it embeds.  External collaborators (the file
system, the GitHub CLI and the remote issue store) are modelled as explicit
values and are documented where they appear.
-/

/-- Python `\s` whitespace (ASCII part); the `str.strip`/regex-`\s` class
`[ \t\n\r\x0b\x0c]`.  Exotic Unicode whitespace is not modelled: no input in
this development contains it. -/
def isPySpace (c : Char) : Bool :=
  c = ' ' || c = '\t' || c = '\n' || c = '\r' || c = '\x0b' || c = '\x0c'

/-- Drop leading whitespace (the action of a maximal regex `\s*`, and one half
of Python `str.strip`). -/
def dropWs : List Char → List Char
  | [] => []
  | c :: t => if isPySpace c then dropWs t else c :: t

/-- Python `str.strip()`: remove leading and trailing whitespace. -/
def pyStrip (l : List Char) : List Char :=
  (dropWs ((dropWs l).reverse)).reverse

/-- Helper for `readlines`. -/
def readlinesAux : List Char → List Char → List (List Char)
  | [], acc => if acc.isEmpty then [] else [acc.reverse]
  | c :: t, acc =>
    if c = '\n' then (acc.reverse ++ ['\n']) :: readlinesAux t []
    else readlinesAux t (c :: acc)

/-- Python `f.readlines()` on text read in universal-newline mode: split after
each `'\n'`, keeping the newline on each line; a final fragment without a
newline is kept as a last line. -/
def readlines (s : List Char) : List (List Char) := readlinesAux s []

/-- Helper for `splitlines`. -/
def splitlinesAux : List Char → List Char → List (List Char)
  | [], acc => if acc.isEmpty then [] else [acc.reverse]
  | c :: t, acc =>
    if c = '\n' then acc.reverse :: splitlinesAux t []
    else splitlinesAux t (c :: acc)

/-- Python `str.splitlines()` restricted to `'\n'` separators (the only line
terminator appearing in this development): line terminators are removed and a
trailing empty fragment is not produced. -/
def splitlines (s : List Char) : List (List Char) := splitlinesAux s []

/-- Helper for `pySplit`. -/
def pySplitAux (sep : Char) : List Char → List Char → List (List Char)
  | [], acc => [acc.reverse]
  | c :: t, acc =>
    if c = sep then acc.reverse :: pySplitAux sep t []
    else pySplitAux sep t (c :: acc)

/-- Python `str.split(sep)` with a one-character separator:
`"a.b".split "." = ["a","b"]`, `"a..b" ↦ ["a","","b"]`, `"" ↦ [""]`. -/
def pySplit (l : List Char) (sep : Char) : List (List Char) := pySplitAux sep l []

/-- Python `str.find(pat)` returning `none` for `-1`: index of the first
occurrence of `pat` as a contiguous substring. -/
def strFind (pat : List Char) : List Char → Option Nat
  | [] => if pat.isPrefixOf ([] : List Char) then some 0 else none
  | c :: t =>
    if pat.isPrefixOf (c :: t) then some 0
    else (strFind pat t).map (· + 1)

/-- Python `pat in l` for strings: substring containment. -/
def containsSub (l pat : List Char) : Bool := (strFind pat l).isSome

/-- Number of bytes of the UTF-8 encoding of one code point. -/
def charUtf8Bytes (c : Char) : Nat :=
  if c.toNat < 128 then 1
  else if c.toNat < 2048 then 2
  else if c.toNat < 65536 then 3
  else 4

/-- Byte length of the UTF-8 encoding of a string. -/
def utf8ByteLen (l : List Char) : Nat := (l.map charUtf8Bytes).sum

/-- Python `str.capitalize()` (ASCII case mapping): first character uppercased,
the rest lowercased. -/
def pyCapitalize : List Char → List Char
  | [] => []
  | c :: t => c.toUpper :: t.map Char.toLower

/-- Python `os.path.join(a, b)` on POSIX paths. -/
def osJoin2 (a b : List Char) : List Char :=
  if b.head? = some '/' then b
  else if a = [] ∨ a.getLast? = some '/' then a ++ b
  else a ++ '/' :: b

/-- Python `os.path.join(*parts)` for a non-empty parts list. -/
def osPathJoin : List (List Char) → List Char
  | [] => []
  | p :: ps => ps.foldl osJoin2 p

/-! ## The two regular expressions of `find_all_sorries` (src/issues.py:237-244) -/

/-- The declaration-kind keyword alternation shared by both regexes, in the
source's alternation order. -/
def declKeywords : List (List Char) :=
  ["theorem".toList, "lemma".toList, "def".toList, "instance".toList,
   "example".toList, "opaque".toList, "abbrev".toList, "inductive".toList,
   "structure".toList]

/-- All remainders reachable after an optional group `(alt₁|alt₂|…)?`:
either nothing is consumed, or one alternative is consumed as a prefix.
Used to give exact backtracking semantics to `decl_regex`. -/
def consumeOpt (alts : List (List Char)) (ls : List (List Char)) : List (List Char) :=
  ls ++ ls.flatMap (fun l =>
    alts.filterMap (fun a => if a.isPrefixOf l then some (l.drop a.length) else none))

/-- `decl_regex.search(line)` of src/issues.py:237-240, i.e. whether
`^(private|protected)?\s*(noncomputable)?\s*(theorem|lemma|def|instance|example|opaque|abbrev|inductive|structure)\s+`
matches at the start of `line` (the pattern is `^`-anchored and `re.MULTILINE`
is not set, so `search` can only match at position 0).  Each `\s*` is followed
by an atom starting with a non-whitespace character, so consuming the maximal
whitespace run is complete; the optional groups are explored by `consumeOpt`. -/
def declRegexAccepts (line : List Char) : Bool :=
  let s1 := consumeOpt ["private".toList, "protected".toList] [line]
  let s2 := s1.map dropWs
  let s3 := consumeOpt ["noncomputable".toList] s2
  let s4 := s3.map dropWs
  s4.any fun r => declKeywords.any fun kw =>
    kw.isPrefixOf r &&
      (match r.drop kw.length with
       | c :: _ => isPySpace c
       | [] => false)

/-- One attempt of `name_extract_regex` at a fixed position: a declaration
keyword, then `\s+`, then the capture `([^\s\(\{:]+)` (maximal run of
characters outside the class; the class excludes whitespace, so the greedy
`\s+` cannot conflict with it). -/
def tryKwAt (l : List Char) : Option (List Char) :=
  declKeywords.findSome? fun kw =>
    if kw.isPrefixOf l then
      match l.drop kw.length with
      | c :: rest =>
        if isPySpace c then
          let name := (dropWs (c :: rest)).takeWhile
            (fun ch => !(isPySpace ch) && ch ≠ '(' && ch ≠ '\x7b' && ch ≠ ':')
          if name.isEmpty then none else some name
        else none
      | [] => none
    else none

/-- The scan performed by the lazy `.*?` of `name_extract_regex`: try every
position left to right; `.` does not match `'\n'`, so scanning stops at a
newline. -/
def scanForName : List Char → Option (List Char)
  | [] => tryKwAt []
  | c :: t =>
    match tryKwAt (c :: t) with
    | some n => some n
    | none => if c = '\n' then none else scanForName t

/-- `name_extract_regex.match(header)` followed by
`match.group(1) if match else ""` (src/issues.py:275-276). -/
def extractName (header : List Char) : List Char := (scanForName header).getD []

/-- The marker token searched for by `find_all_sorries` (src/issues.py:269). -/
def markerTok : List Char := "sorry".toList

/-- The line-comment token (src/issues.py:270). -/
def ddTok : List Char := "--".toList

/-- The trailing-comment exclusion of src/issues.py:270-273:
`comment_pos = line.find("--")`, `sorry_pos = line.find("sorry")`, skip when
`comment_pos != -1 and sorry_pos > comment_pos`. -/
def commentSkip (line : List Char) : Bool :=
  match strFind ddTok line, strFind markerTok line with
  | some c, some s => decide (c < s)
  | _, _ => false

/-- `import_regex.match(line)` for `^import\s+([^\s]+)` (src/issues.py:54),
returning the captured import path. -/
def parseImportLine (line : List Char) : Option (List Char) :=
  if ("import".toList).isPrefixOf line then
    match line.drop 6 with
    | c :: rest =>
      if isPySpace c then
        let name := (dropWs (c :: rest)).takeWhile (fun ch => !(isPySpace ch))
        if name.isEmpty then none else some name
      else none
    | [] => none
  else none

/-! ## Declaration scanner (`find_all_sorries` per-file loop, src/issues.py:254-289) -/

/-- One obligation record as produced by the per-file scan (the dict of
src/issues.py:282-289, before the walker attaches file-level fields). -/
structure ScanRec where
  line_num : Nat
  decl_name : List Char
  snippet : List Char
deriving DecidableEq, Repr

/-- The body of the `if "sorry" in line:` block (src/issues.py:269-289) for one
line, given the already-updated declaration context `header1`/`headerLine1`:
apply the trailing-comment exclusion, then build the record.  `lineNum` is
1-based; `start_line = current_decl_linenum if current_decl_linenum > 0 else
line_num`; `snippet = "".join(lines[start_line - 1 : line_num])`. -/
def emitAt (lines : List (List Char)) (lineNum : Nat) (header1 : List Char)
    (headerLine1 : Nat) (line : List Char) : List ScanRec :=
  if containsSub line markerTok then
    if commentSkip line then []
    else
      [⟨lineNum, extractName header1,
        ((lines.drop ((if 0 < headerLine1 then headerLine1 else lineNum) - 1)).take
          (lineNum - ((if 0 < headerLine1 then headerLine1 else lineNum) - 1))).flatten⟩]
  else []

/-- The `for i, line in enumerate(lines)` loop of src/issues.py:262-289:
`i` is the 0-based index of the head of the remaining lines; the declaration
context (`current_decl_header`, `current_decl_linenum`) is updated first
(src/issues.py:265-267), then the marker check runs on the same line with the
updated context. -/
def scanAux (lines : List (List Char)) :
    List (List Char) → Nat → List Char → Nat → List ScanRec
  | [], _, _, _ => []
  | line :: rest, i, header, headerLine =>
    emitAt lines (i + 1)
        (if declRegexAccepts line then pyStrip line else header)
        (if declRegexAccepts line then i + 1 else headerLine) line
      ++ scanAux lines rest (i + 1)
        (if declRegexAccepts line then pyStrip line else header)
        (if declRegexAccepts line then i + 1 else headerLine)

/-- The whole per-file scan: state starts as `current_decl_header = ""`,
`current_decl_linenum = 0` (src/issues.py:254-255). -/
def scanFile (lines : List (List Char)) : List ScanRec := scanAux lines lines 0 [] 0

/-! ## Import resolver (`find_and_read_imports`, src/issues.py:52-120) -/

/-- The file-system facts `find_and_read_imports` consults: the readable files
(path ↦ decoded content) and the result of `os.listdir` on
`<repo_root>/.lake/packages` (empty when that directory is absent, which makes
the package map empty exactly as in src/issues.py:60). -/
structure FileSys where
  files : List (List Char × List Char)
  lakePackages : List (List Char)

/-- Reading an existing file (`open(...).read()`); `none` when no such path. -/
def readFs (fs : FileSys) (p : List Char) : Option (List Char) := fs.files.lookup p

/-- `os.path.exists` (directories are not modelled; only files occur here). -/
def pathExists (fs : FileSys) (p : List Char) : Bool := (readFs fs p).isSome

/-- The package map of src/issues.py:57-63: for each entry of
`.lake/packages`, map its capitalized name to its directory. -/
def buildPackageMap (fs : FileSys) (repo_root : List Char) :
    List (List Char × List Char) :=
  fs.lakePackages.map fun package_name =>
    (pyCapitalize package_name,
     osJoin2 (osJoin2 (osJoin2 repo_root ".lake".toList) "packages".toList) package_name)

/-- Lookup in the package map with Python-dict semantics: a later binding of
the same key overwrites an earlier one, so the reversed association list is
searched front-to-back. -/
def packageLookup (m : List (List Char × List Char)) (k : List Char) :
    Option (List Char) :=
  m.reverse.lookup k

/-- `os.path.join(*import_parts) + '.lean'` (src/issues.py:73). -/
def relativeImportPath (import_parts : List (List Char)) : List Char :=
  osPathJoin import_parts ++ ".lean".toList

/-- The `full_path` computation of src/issues.py:75-94: dependency packages
first (only when the first segment is a key of the package map AND the
candidate file exists), then the project root, then `<repo_root>/src`. -/
def resolveImport (fs : FileSys) (repo_root : List Char)
    (pkgMap : List (List Char × List Char)) (import_parts : List (List Char)) :
    Option (List Char) :=
  let relative_path := relativeImportPath import_parts
  let dep : Option (List Char) :=
    match import_parts with
    | [] => none
    | p0 :: _ =>
      match packageLookup pkgMap p0 with
      | some package_root =>
        if pathExists fs (osJoin2 package_root relative_path) then
          some (osJoin2 package_root relative_path)
        else none
      | none => none
  match dep with
  | some p => some p
  | none =>
    if pathExists fs (osJoin2 repo_root relative_path) then
      some (osJoin2 repo_root relative_path)
    else if pathExists fs (osJoin2 (osJoin2 repo_root "src".toList) relative_path) then
      some (osJoin2 (osJoin2 repo_root "src".toList) relative_path)
    else none

/-- `MAX_IMPORT_FILE_SIZE` (src/issues.py:13). -/
def MAX_IMPORT_FILE_SIZE : Nat := 25000

/-- What one line of the scanned file contributes to the imports context
 (the loop body of src/issues.py:65-118): nothing for a non-import line;
for a resolved import, the labeled content when `len(content) <
MAX_IMPORT_FILE_SIZE` (`len` of a Python `str` counts code points), nothing
(plus a logged warning) otherwise; for an unresolved import, the simulated
web-search text when `web_search` is set, nothing otherwise. -/
def importContribution (fs : FileSys) (repo_root : List Char) (web_search : Bool)
    (pkgMap : List (List Char × List Char)) (line : List Char) : List Char :=
  match parseImportLine line with
  | none => []
  | some import_path_str =>
    match resolveImport fs repo_root pkgMap (pySplit import_path_str '.') with
    | some full_path =>
      match readFs fs full_path with
      | some content =>
        if content.length < MAX_IMPORT_FILE_SIZE then
          "\n---\n-- Content from: ".toList ++ import_path_str
            ++ "\n---\n".toList ++ content
        else []
      | none => []
    | none =>
      if web_search then
        "\n---\n-- Web search result for: ".toList ++ import_path_str
          ++ "\n---\n".toList
          ++ "Content from web search for ".toList ++ import_path_str
      else []

/-- `find_and_read_imports(file_content, repo_root, web_search)`
 (src/issues.py:52-120): build the package map once, then concatenate the
contribution of every line. -/
def find_and_read_imports (file_content repo_root : List Char) (web_search : Bool)
    (fs : FileSys) : List Char :=
  ((splitlines file_content).map
    (importContribution fs repo_root web_search (buildPackageMap fs repo_root))).flatten

/-! ## Tree walker (`find_all_sorries`, src/issues.py:233-290) -/

/-- A full obligation record (the dict of src/issues.py:282-289). -/
structure ObligationInfo where
  file_path : List Char
  line_num : Nat
  decl_name : List Char
  snippet : List Char
  full_content : List Char
  imports_context : List Char
deriving DecidableEq, Repr

/-- One file encountered by `os.walk` in traversal order, with the outcome of
`open(file_path).readlines()` (an `Except` error models the raised exception
for an unreadable file: encoding error, permission …). -/
structure FileEntry where
  path : List Char
  read : Except (List Char) (List Char)

/-- Per-file processing (src/issues.py:257-289): read the lines, scan, and for
EVERY emitted record call `find_and_read_imports` (src/issues.py:281 sits
inside the per-marker block, so the resolver runs once per record, not once
per file).  The second component counts those resolver invocations: the map
performs exactly one call per record, so the count is the number of records. -/
def processFile (fs : FileSys) (target_repo_path : List Char) (web_search : Bool)
    (path content : List Char) : List ObligationInfo × Nat :=
  let lines := readlines content
  let recs := scanFile lines
  (recs.map fun r =>
    ⟨path, r.line_num, r.decl_name, r.snippet, content,
     find_and_read_imports content target_repo_path web_search fs⟩,
   recs.length)

/-- `find_all_sorries(search_path, target_repo_path, web_search)`
 (src/issues.py:233-290) over the `.lean`-filtered files that `os.walk`
yields, in traversal order (directory pruning and per-directory sorting are
abstracted into the order of `files`).  The `open`/`readlines` of
src/issues.py:257-258 is NOT wrapped in any handler, so a read failure
propagates as an exception and aborts the whole walk: modelled by the
`Except` short-circuit.  The `Nat` tallies resolver invocations. -/
def find_all_sorries (fs : FileSys) (target_repo_path : List Char)
    (web_search : Bool) : List FileEntry → Except (List Char) (List ObligationInfo × Nat)
  | [] => Except.ok ([], 0)
  | e :: rest =>
    if (".lean".toList).isSuffixOf e.path then
      match e.read with
      | Except.error msg => Except.error msg
      | Except.ok content =>
        match find_all_sorries fs target_repo_path web_search rest with
        | Except.error msg => Except.error msg
        | Except.ok (infos, n) =>
          let pr := processFile fs target_repo_path web_search e.path content
          Except.ok (pr.1 ++ infos, pr.2 + n)
    else find_all_sorries fs target_repo_path web_search rest

/-! ## Publisher (`create_github_issue`, src/issues.py:201-230, and the
per-record loop of `process_sorries`, src/issues.py:292-321) -/

/-- The issue title derived in src/issues.py:304-306. -/
def mkTitle (decl_name file_path : List Char) (line_num : Nat) : List Char :=
  if decl_name = [] then
    "Proof obligation in `".toList ++ file_path ++ "` near line ".toList
      ++ (toString line_num).toList
  else
    "Proof obligation for `".toList ++ decl_name ++ "` in `".toList
      ++ file_path ++ "`".toList

/-- The search query of src/issues.py:206.  The source f-string is
`f'"QQtitleRR in:title …'` with a DOUBLED brace around `title`, which Python
renders as the literal seven characters brace-t-i-t-l-e-brace: the `title`
variable is never interpolated, so the query does not depend on `title`. -/
def searchQuery (title repo_name : List Char) : List Char :=
  "\"\x7btitle\x7d\" in:title repo:".toList ++ repo_name ++ " is:open".toList

/-- Modelled from the spec: the remote record store's `search(query)`
collaborator (`gh issue list --search`), absent from src/.  The spec calls it
"a single exact-match query" on titles; a GitHub quoted `"phrase" in:title`
query returns the open records whose title contains the quoted phrase, one
title per output line.  (Containment subsumes exact equality; every theorem
below is insensitive to that choice.) -/
def ghIssueListOutput (store : List (List Char)) (query : List Char) : List Char :=
  let phrase := (query.drop 1).takeWhile (fun c => c ≠ '"')
  List.intercalate ['\n'] (store.filter (fun t => containsSub t phrase))

/-- Outcome of one `create_github_issue` call. -/
inductive PubOutcome
  | exited
  | skipped
  | created
  | createFailed
deriving DecidableEq, Repr

/-- `create_github_issue(title, body, repo_name, label)` (src/issues.py:201-230)
acting on the store of open issue titles.
`listOk`/`createOk` say whether the two `gh` subprocesses succeed.
The existence check goes through `run_command` (src/issues.py:123-133), which
catches `CalledProcessError` itself and calls `sys.exit(1)`: a failing check
therefore terminates the whole process (`PubOutcome.exited`); the
`except subprocess.CalledProcessError` block of src/issues.py:212-217 is
unreachable, since `run_command` re-raises nothing (and `SystemExit` is not a
`subprocess.CalledProcessError`).  A failure of `gh issue create` is caught
per record (src/issues.py:229-230). -/
def create_github_issue (store : List (List Char)) (title _body repo_name _label : List Char)
    (listOk createOk : Bool) : PubOutcome × List (List Char) :=
  if listOk = false then (PubOutcome.exited, store)
  else
    let existing_issues := pyStrip (ghIssueListOutput store (searchQuery title repo_name))
    if existing_issues ≠ [] then (PubOutcome.skipped, store)
    else if createOk then (PubOutcome.created, store ++ [title])
    else (PubOutcome.createFailed, store)

/-- The publishing part of the per-record completion loop of `process_sorries`
 (src/issues.py:299-321): records are handled one at a time; a
`PubOutcome.exited` (i.e. `sys.exit(1)` inside `run_command`) terminates the
process, abandoning all remaining records — `SystemExit` does not derive from
`Exception`, so the `except Exception` of src/issues.py:320 does not catch it.
Every other outcome lets the loop continue. -/
def publish_loop (store : List (List Char)) (repo_name : List Char) :
    List (List Char × Bool × Bool) → Except Unit (List PubOutcome × List (List Char))
  | [] => Except.ok ([], store)
  | (title, listOk, createOk) :: rest =>
    match create_github_issue store title [] repo_name [] listOk createOk with
    | (PubOutcome.exited, _) => Except.error ()
    | (outcome, store1) =>
      match publish_loop store1 repo_name rest with
      | Except.error e => Except.error e
      | Except.ok (outs, finalStore) => Except.ok (outcome :: outs, finalStore)

/-! ## Helper lemmas: substring search -/

/-- A found occurrence really is one: `strFind` returns a position where the
pattern is a prefix of the remaining text. -/
theorem strFind_prefix {pat l : List Char} {n : Nat} (h : strFind pat l = some n) :
    pat.isPrefixOf (l.drop n) = true := by
  induction l generalizing n with
  | nil =>
    unfold strFind at h
    split at h
    · cases h; simp only [List.drop_nil]; assumption
    · cases h
  | cons c t ih =>
    unfold strFind at h
    split at h
    · cases h; simp only [List.drop_zero]; assumption
    · rcases Option.map_eq_some'.mp h with ⟨m, hm, rfl⟩
      simp only [List.drop_succ_cons]
      exact ih hm

/-- `strFind` finds the first occurrence: any position carrying the pattern
bounds the result from above. -/
theorem strFind_le_of_prefix {pat l : List Char} {p : Nat}
    (h : pat.isPrefixOf (l.drop p) = true) :
    ∃ n, strFind pat l = some n ∧ n ≤ p := by
  induction l generalizing p with
  | nil =>
    refine ⟨0, ?_, Nat.zero_le _⟩
    unfold strFind
    rw [List.drop_nil] at h
    simp [h]
  | cons c t ih =>
    by_cases hpre : pat.isPrefixOf (c :: t) = true
    · exact ⟨0, by unfold strFind; simp [hpre], Nat.zero_le _⟩
    · cases p with
      | zero => rw [List.drop_zero] at h; exact absurd h hpre
      | succ q =>
        rw [List.drop_succ_cons] at h
        rcases ih h with ⟨n, hn, hle⟩
        refine ⟨n + 1, ?_, Nat.succ_le_succ hle⟩
        unfold strFind
        simp [hpre, hn]

/-- A string containing the marker token is non-empty. -/
theorem ne_nil_of_containsSub_marker {l : List Char}
    (h : containsSub l markerTok = true) : l ≠ [] := by
  intro hl
  subst hl
  simp [containsSub, strFind, markerTok] at h

/-- The trailing-comment skip of the scanner, in terms of the positions of the
first `--` and the first `sorry` on the line. -/
theorem commentSkip_iff {line : List Char} :
    commentSkip line = true ↔
      ∃ c s, strFind ddTok line = some c ∧ strFind markerTok line = some s ∧ c < s := by
  unfold commentSkip
  rcases hd : strFind ddTok line with _ | c <;>
    rcases hs : strFind markerTok line with _ | s
  · simp [hd, hs]
  · simp [hd, hs]
  · simp [hd, hs]
  · simp only [hd, hs]
    constructor
    · intro h
      exact ⟨c, s, rfl, rfl, of_decide_eq_true h⟩
    · rintro ⟨c', s', hc', hs', hlt⟩
      injection hc' with h1
      injection hs' with h2
      subst h1
      subst h2
      exact decide_eq_true hlt

/-! ## Helper lemmas: list slicing and the scanner loop -/

/-- The head of `lines.drop i` is the `i`-th line. -/
theorem getElem?_of_drop_cons {lines rest2 : List (List Char)} {line : List Char}
    {i : Nat} (h : lines.drop i = line :: rest2) : lines[i]? = some line := by
  have h0 : (lines.drop i)[0]? = some line := by rw [h]; simp
  rwa [List.getElem?_drop, Nat.add_zero] at h0

/-- Dropping one more line peels the head off. -/
theorem drop_succ_of_drop_cons {lines rest2 : List (List Char)} {line : List Char}
    {i : Nat} (h : lines.drop i = line :: rest2) : lines.drop (i + 1) = rest2 := by
  have h1 : (lines.drop i).drop 1 = lines.drop (i + 1) := by
    rw [List.drop_drop]
  rw [← h1, h]
  rfl

/-- Splitting a joined slice `lines[a : i+1]` at its last line. -/
theorem flatten_slice_split {lines rest2 : List (List Char)} {line : List Char}
    {i a : Nat} (h : lines.drop i = line :: rest2) (ha : a ≤ i) :
    ((lines.drop a).take (i + 1 - a)).flatten
      = ((lines.drop a).take (i - a)).flatten ++ line := by
  have h1 : i + 1 - a = (i - a) + 1 := by omega
  have h2 : (lines.drop a).drop (i - a) = line :: rest2 := by
    rw [List.drop_drop]
    rw [show a + (i - a) = i by omega]
    exact h
  rw [h1, List.take_add, List.flatten_append, h2]
  simp

/-- Unpacking membership in the per-line emission. -/
theorem emitAt_mem {lines : List (List Char)} {n : Nat} {h1 : List Char}
    {hl1 : Nat} {line : List Char} {r : ScanRec}
    (hr : r ∈ emitAt lines n h1 hl1 line) :
    containsSub line markerTok = true ∧ commentSkip line = false ∧
      r = ⟨n, extractName h1,
        ((lines.drop ((if 0 < hl1 then hl1 else n) - 1)).take
          (n - ((if 0 < hl1 then hl1 else n) - 1))).flatten⟩ := by
  unfold emitAt at hr
  split at hr
  · split at hr
    · exact absurd hr (List.not_mem_nil r)
    · rename_i hc hk
      exact ⟨hc, Bool.eq_false_iff.mpr (fun hh => hk hh), List.mem_singleton.mp hr⟩
  · rename_i hc
    exact absurd hr (List.not_mem_nil r)

/-- The per-line emission on a marker line not excluded by the comment rule. -/
theorem emitAt_eq {lines : List (List Char)} {n : Nat} {h1 : List Char}
    {hl1 : Nat} {line : List Char}
    (hc : containsSub line markerTok = true) (hk : commentSkip line = false) :
    emitAt lines n h1 hl1 line
      = [⟨n, extractName h1,
          ((lines.drop ((if 0 < hl1 then hl1 else n) - 1)).take
            (n - ((if 0 < hl1 then hl1 else n) - 1))).flatten⟩] := by
  unfold emitAt
  rw [hc, hk]
  simp

/-- A marker line that survives the exclusion emits exactly one record, whose
line number is the current one. -/
theorem emitAt_exists (lines : List (List Char)) (n : Nat) (h1 : List Char)
    (hl1 : Nat) (line : List Char)
    (hc : containsSub line markerTok = true) (hk : commentSkip line = false) :
    ∃ r ∈ emitAt lines n h1 hl1 line, r.line_num = n := by
  rw [emitAt_eq hc hk]
  exact ⟨_, List.mem_singleton.mpr rfl, rfl⟩

/-- Every record of the scan comes from a marker line that survives the
trailing-comment exclusion (soundness of the loop). -/
theorem scan_mem_spec {lines : List (List Char)} :
    ∀ {rest : List (List Char)} {i : Nat} {h : List Char} {hl : Nat} {r : ScanRec},
      rest = lines.drop i → r ∈ scanAux lines rest i h hl →
      ∃ j lj, i ≤ j ∧ lines[j]? = some lj ∧ containsSub lj markerTok = true ∧
        commentSkip lj = false ∧ r.line_num = j + 1 := by
  intro rest
  induction rest with
  | nil => intro i h hl r _ hr; exact absurd hr (List.not_mem_nil r)
  | cons line rest2 ih =>
    intro i h hl r hdrop hr
    rw [scanAux, List.mem_append] at hr
    rcases hr with hr | hr
    · rcases emitAt_mem hr with ⟨hc, hk, rfl⟩
      exact ⟨i, line, Nat.le_refl i, getElem?_of_drop_cons hdrop.symm, hc, hk, rfl⟩
    · rcases ih (drop_succ_of_drop_cons hdrop.symm).symm hr with
        ⟨j, lj, hij, hget, hc, hk, hnum⟩
      exact ⟨j, lj, Nat.le_trans (Nat.le_succ i) hij, hget, hc, hk, hnum⟩

/-- Every marker line that survives the exclusion yields a record
(completeness of the loop); the declaration state is arbitrary. -/
theorem scan_mem_exists {lines : List (List Char)} :
    ∀ {rest : List (List Char)} {i : Nat} (h : List Char) (hl : Nat)
      {j : Nat} {lj : List Char},
      rest = lines.drop i → i ≤ j → lines[j]? = some lj →
      containsSub lj markerTok = true → commentSkip lj = false →
      ∃ r ∈ scanAux lines rest i h hl, r.line_num = j + 1 := by
  intro rest
  induction rest with
  | nil =>
    intro i h hl j lj hdrop hij hget _ _
    exfalso
    have h0 : lines[j]? = (lines.drop i)[j - i]? := by
      rw [List.getElem?_drop, show i + (j - i) = j by omega]
    rw [← hdrop] at h0
    rw [hget] at h0
    simp at h0
  | cons line rest2 ih =>
    intro i h hl j lj hdrop hij hget hc hk
    rcases Nat.eq_or_lt_of_le hij with rfl | hlt
    · have hline : line = lj := by
        have := getElem?_of_drop_cons hdrop.symm
        rw [hget] at this
        injection this with h'
        exact h'.symm
      subst hline
      rcases emitAt_exists lines (i + 1)
          (if declRegexAccepts line then pyStrip line else h)
          (if declRegexAccepts line then i + 1 else hl) line hc hk with ⟨r, hr, hnum⟩
      refine ⟨r, ?_, hnum⟩
      rw [scanAux, List.mem_append]
      exact Or.inl hr
    · rcases ih _ _ (drop_succ_of_drop_cons hdrop.symm).symm hlt hget hc hk with
        ⟨r, hr, hnum⟩
      refine ⟨r, ?_, hnum⟩
      rw [scanAux, List.mem_append]
      exact Or.inr hr

/-- If the drop is empty, every index at or past the drop point is out of
range. -/
theorem getElem?_none_of_drop_nil {lines : List (List Char)} {i j : Nat}
    (h : lines.drop i = []) (hij : i ≤ j) : lines[j]? = none := by
  have h0 : lines[j]? = (lines.drop i)[j - i]? := by
    rw [List.getElem?_drop, show i + (j - i) = j by omega]
  rw [h0, h]
  simp

/-- The `i`-th line through `getD`. -/
theorem getD_of_drop_cons {lines rest2 : List (List Char)} {line : List Char}
    {i : Nat} (h : lines.drop i = line :: rest2) : lines.getD i [] = line := by
  rw [List.getD_eq_getElem?_getD, getElem?_of_drop_cons h]
  rfl

/-- Shape of every scanned record: the snippet ends with the (marker-carrying)
line the record points at. -/
theorem scan_snippet_shape {lines : List (List Char)} :
    ∀ {rest : List (List Char)} {i : Nat} {h : List Char} {hl : Nat} {r : ScanRec},
      rest = lines.drop i → hl ≤ i → r ∈ scanAux lines rest i h hl →
      ∃ mline p, lines[r.line_num - 1]? = some mline ∧
        containsSub mline markerTok = true ∧ r.snippet = p ++ mline := by
  intro rest
  induction rest with
  | nil => intro i h hl r _ _ hr; exact absurd hr (List.not_mem_nil r)
  | cons line rest2 ih =>
    intro i h hl r hdrop hle hr
    rw [scanAux, List.mem_append] at hr
    rcases hr with hr | hr
    · rcases emitAt_mem hr with ⟨hc, hk, rfl⟩
      have ha : (if 0 < (if declRegexAccepts line then i + 1 else hl)
          then (if declRegexAccepts line then i + 1 else hl) else i + 1) - 1 ≤ i := by
        rcases Nat.lt_or_ge 0 (if declRegexAccepts line then i + 1 else hl) with hpos | hpos
        · rw [if_pos hpos]
          split
          · omega
          · omega
        · rw [if_neg (Nat.not_lt.mpr hpos)]
          omega
      have hsplit := flatten_slice_split hdrop.symm ha
      refine ⟨line, _, ?_, hc, hsplit⟩
      show lines[i + 1 - 1]? = some line
      simp only [Nat.add_sub_cancel]
      exact getElem?_of_drop_cons hdrop.symm
    · have hle2 : (if declRegexAccepts line then i + 1 else hl) ≤ i + 1 := by
        split
        · exact Nat.le_refl _
        · omega
      exact ih (drop_succ_of_drop_cons hdrop.symm).symm hle2 hr

/-- When no declaration-header line occurs before a record's line (and the
incoming state reflects that), the record degenerates: its snippet is exactly
its own line and its declaration name is empty. -/
theorem scan_degenerate {lines : List (List Char)} :
    ∀ {rest : List (List Char)} {i : Nat} {h : List Char} {hl : Nat} {r : ScanRec},
      rest = lines.drop i → hl ≤ i →
      ((h = [] ∧ hl = 0) ∨ ∃ j, j < i ∧ declRegexAccepts (lines.getD j []) = true) →
      r ∈ scanAux lines rest i h hl →
      (∀ j, j < r.line_num → declRegexAccepts (lines.getD j []) = false) →
      r.snippet = lines.getD (r.line_num - 1) [] ∧ r.decl_name = [] := by
  intro rest
  induction rest with
  | nil => intro i h hl r _ _ _ hr _; exact absurd hr (List.not_mem_nil r)
  | cons line rest2 ih =>
    intro i h hl r hdrop hle hinv hr hnone
    have hgetD : lines.getD i [] = line := getD_of_drop_cons hdrop.symm
    rw [scanAux, List.mem_append] at hr
    rcases hr with hr | hr
    · rcases emitAt_mem hr with ⟨hc, hk, rfl⟩
      have hacc : declRegexAccepts line = false := by
        have hni := hnone i (Nat.lt_succ_self i)
        rwa [hgetD] at hni
      have hstate : h = [] ∧ hl = 0 := by
        rcases hinv with hst | ⟨j, hj, hjacc⟩
        · exact hst
        · rw [hnone j (Nat.lt_trans hj (Nat.lt_succ_self i))] at hjacc
          cases hjacc
      obtain ⟨rfl, rfl⟩ := hstate
      dsimp only
      have hA : (if 0 < (if declRegexAccepts line then i + 1 else 0)
          then (if declRegexAccepts line then i + 1 else 0) else i + 1) = i + 1 := by
        rw [hacc]
        simp
      rw [hA]
      constructor
      · simp only [Nat.add_sub_cancel]
        rw [show i + 1 - i = 1 from by omega]
        rw [← hdrop]
        simp only [List.take_succ_cons, List.take_zero, List.flatten_cons,
          List.flatten_nil, List.append_nil]
        exact hgetD.symm
      · rw [hacc]
        simp only [Bool.false_eq_true, if_false]
        decide
    · have hle2 : (if declRegexAccepts line then i + 1 else hl) ≤ i + 1 := by
        split
        · exact Nat.le_refl _
        · omega
      have hinv2 : ((if declRegexAccepts line then pyStrip line else h) = [] ∧
            (if declRegexAccepts line then i + 1 else hl) = 0) ∨
          ∃ j, j < i + 1 ∧ declRegexAccepts (lines.getD j []) = true := by
        by_cases hacc : declRegexAccepts line = true
        · exact Or.inr ⟨i, Nat.lt_succ_self i, by rw [hgetD]; exact hacc⟩
        · rw [if_neg hacc, if_neg hacc]
          rcases hinv with hst | ⟨j, hj, hjacc⟩
          · exact Or.inl hst
          · exact Or.inr ⟨j, by omega, hjacc⟩
      exact ih (drop_succ_of_drop_cons hdrop.symm).symm hle2 hinv2 hr hnone

/-- If no declaration-header line occurs from the current position through a
surviving marker line, the marker's record carries the incoming declaration
state unchanged: its name comes from the current header text and its snippet
starts at the current header line. -/
theorem scan_state_run {lines : List (List Char)} :
    ∀ {rest : List (List Char)} {i : Nat} (h : List Char) (hl : Nat)
      {j : Nat} {lj : List Char},
      rest = lines.drop i → i ≤ j → lines[j]? = some lj →
      containsSub lj markerTok = true → commentSkip lj = false →
      (∀ m, i ≤ m → m ≤ j → declRegexAccepts (lines.getD m []) = false) →
      ∃ r ∈ scanAux lines rest i h hl, r.line_num = j + 1 ∧
        r.decl_name = extractName h ∧
        r.snippet = ((lines.drop ((if 0 < hl then hl else j + 1) - 1)).take
          ((j + 1) - ((if 0 < hl then hl else j + 1) - 1))).flatten := by
  intro rest
  induction rest with
  | nil =>
    intro i h hl j lj hdrop hij hget _ _ _
    rw [getElem?_none_of_drop_nil hdrop.symm hij] at hget
    cases hget
  | cons line rest2 ih =>
    intro i h hl j lj hdrop hij hget hc hk hnone
    have hgetD : lines.getD i [] = line := getD_of_drop_cons hdrop.symm
    have hacc : declRegexAccepts line = false := by
      have hni := hnone i (Nat.le_refl i) hij
      rwa [hgetD] at hni
    have hif1 : (if declRegexAccepts line then pyStrip line else h) = h := by
      rw [hacc]
      simp
    have hif2 : (if declRegexAccepts line then i + 1 else hl) = hl := by
      rw [hacc]
      simp
    rcases Nat.eq_or_lt_of_le hij with rfl | hlt
    · have hline : line = lj := by
        have hg := getElem?_of_drop_cons hdrop.symm
        rw [hget] at hg
        injection hg with h'
        exact h'.symm
      subst hline
      refine ⟨⟨i + 1, extractName h,
        ((lines.drop ((if 0 < hl then hl else i + 1) - 1)).take
          ((i + 1) - ((if 0 < hl then hl else i + 1) - 1))).flatten⟩, ?_, rfl, rfl, rfl⟩
      rw [scanAux, List.mem_append]
      left
      rw [hif1, hif2, emitAt_eq hc hk]
      exact List.mem_singleton.mpr rfl
    · have hnone2 : ∀ m, i + 1 ≤ m → m ≤ j → declRegexAccepts (lines.getD m []) = false := by
        intro m hm1 hm2
        exact hnone m (by omega) hm2
      rcases ih h hl (drop_succ_of_drop_cons hdrop.symm).symm hlt hget hc hk hnone2 with
        ⟨r, hr, hnum, hname, hsnip⟩
      refine ⟨r, ?_, hnum, hname, hsnip⟩
      rw [scanAux, List.mem_append, hif1, hif2]
      exact Or.inr hr

/-- Reaching a later declaration-header line: whatever holds for some record of
the scan restarted just after a header line at or past the current position
also holds for a record of the current scan (the intervening state is
overwritten by the header). -/
theorem scan_reach {lines : List (List Char)} (Q : ScanRec → Prop) :
    ∀ {rest : List (List Char)} {i : Nat} (h : List Char) (hl : Nat)
      {iH : Nat} {hdr : List Char},
      rest = lines.drop i → i ≤ iH → lines[iH]? = some hdr →
      declRegexAccepts hdr = true →
      (∃ r ∈ scanAux lines (lines.drop (iH + 1)) (iH + 1) (pyStrip hdr) (iH + 1), Q r) →
      ∃ r ∈ scanAux lines rest i h hl, Q r := by
  intro rest
  induction rest with
  | nil =>
    intro i h hl iH hdr hdrop hij hget _ _
    rw [getElem?_none_of_drop_nil hdrop.symm hij] at hget
    cases hget
  | cons line rest2 ih =>
    intro i h hl iH hdr hdrop hij hget hacc hex
    rcases Nat.eq_or_lt_of_le hij with rfl | hlt
    · have hline : line = hdr := by
        have hg := getElem?_of_drop_cons hdrop.symm
        rw [hget] at hg
        injection hg with h'
        exact h'.symm
      subst hline
      rcases hex with ⟨r, hr, hq⟩
      refine ⟨r, ?_, hq⟩
      rw [scanAux, List.mem_append]
      right
      rw [if_pos hacc, if_pos hacc]
      rw [← drop_succ_of_drop_cons hdrop.symm]
      exact hr
    · rcases ih (if declRegexAccepts line then pyStrip line else h)
          (if declRegexAccepts line then i + 1 else hl)
          (drop_succ_of_drop_cons hdrop.symm).symm hlt hget hacc hex with ⟨r, hr, hq⟩
      refine ⟨r, ?_, hq⟩
      rw [scanAux, List.mem_append]
      exact Or.inr hr

/-! ## Claim theorems: the Declaration Scanner -/

/-- C6: on a line containing the marker token, a record is produced if and
only if the marker's position (the first occurrence, which is what
`line.find` inspects) is NOT after the start of a line comment: a marker
after a `--` line-comment start yields no record, a marker before any
comment marker (or with no comment marker present) always yields one. -/
theorem marker_comment_exclusion (lines : List (List Char)) (i : Nat)
    (line : List Char) (hget : lines[i]? = some line)
    (hc : containsSub line markerTok = true) :
    (∃ r ∈ scanFile lines, r.line_num = i + 1) ↔
      ¬ ∃ c s, strFind ddTok line = some c ∧ strFind markerTok line = some s ∧ c < s := by
  constructor
  · rintro ⟨r, hr, hnum⟩
    unfold scanFile at hr
    rcases scan_mem_spec (List.drop_zero lines).symm hr with
      ⟨j, lj, _, hget2, _, hk2, hnum2⟩
    have hj : j = i := by omega
    subst hj
    rw [hget] at hget2
    injection hget2 with he
    subst he
    intro hex
    have hkt := commentSkip_iff.mpr hex
    rw [hk2] at hkt
    cases hkt
  · intro hn
    have hk : commentSkip line = false := by
      rcases hb : commentSkip line
      · rfl
      · exact absurd (commentSkip_iff.mp hb) hn
    unfold scanFile
    exact scan_mem_exists [] 0 (List.drop_zero lines).symm (Nat.zero_le i) hget hc hk

/-- Witness for C6: `-- sorry` produces no record; `x := sorry -- tail`
(marker before the comment) produces one. -/
theorem marker_comment_exclusion_witness :
    (¬ ∃ r ∈ scanFile ["-- sorry".toList], r.line_num = 1) ∧
    (∃ r ∈ scanFile ["x := sorry -- tail".toList], r.line_num = 1) := by
  constructor
  · intro hex
    exact (marker_comment_exclusion ["-- sorry".toList] 0 ("-- sorry".toList)
      rfl (by decide)).mp hex ⟨0, 3, by decide, by decide, by decide⟩
  · refine (marker_comment_exclusion ["x := sorry -- tail".toList] 0
      ("x := sorry -- tail".toList) rfl (by decide)).mpr ?_
    rintro ⟨c, s, hcq, hsq, hlt⟩
    have h0 : strFind ddTok ("x := sorry -- tail".toList) = some 11 := by decide
    have h1 : strFind markerTok ("x := sorry -- tail".toList) = some 5 := by decide
    rw [h0] at hcq
    rw [h1] at hsq
    injection hcq with hc'
    injection hsq with hs'
    omega

/-- C9: marker detection is substring-based: any occurrence of the character
sequence of the marker inside longer text (an identifier such as `sorryAx`, a
string literal, …), with no line-comment start before that occurrence, makes
the Scanner emit a record for the line. -/
theorem marker_substring_detection (lines : List (List Char)) (i : Nat)
    (line : List Char) (p : Nat) (hget : lines[i]? = some line)
    (hocc : markerTok.isPrefixOf (line.drop p) = true)
    (hcm : ∀ c, strFind ddTok line = some c → p ≤ c) :
    ∃ r ∈ scanFile lines, r.line_num = i + 1 := by
  rcases strFind_le_of_prefix hocc with ⟨s, hs, hsp⟩
  have hc : containsSub line markerTok = true := by
    rw [containsSub, hs]
    rfl
  have hk : commentSkip line = false := by
    unfold commentSkip
    rcases hd : strFind ddTok line with _ | c
    · rw [hs]
    · rw [hs]
      have hpc := hcm c hd
      simp only [decide_eq_false_iff_not]
      omega
  unfold scanFile
  exact scan_mem_exists [] 0 (List.drop_zero lines).symm (Nat.zero_le i) hget hc hk

/-- Witness for C9: the marker inside the identifier `sorryAx` (position 6,
no line comment on the line) emits a record. -/
theorem marker_substring_detection_witness :
    ∃ r ∈ scanFile ["exact sorryAx _".toList], r.line_num = 1 := by
  apply marker_substring_detection ["exact sorryAx _".toList] 0
    ("exact sorryAx _".toList) 6 rfl (by decide)
  intro c hcq
  have h0 : strFind ddTok ("exact sorryAx _".toList) = none := by decide
  rw [h0] at hcq
  cases hcq

/-- C8: every record of the Scanner has a non-empty snippet ending with the
(marker-carrying) line it points at; and when no declaration-header line
occurs at or before the record's line, the snippet is exactly the marker's
own line and the declaration name is empty. -/
theorem snippet_invariant (lines : List (List Char)) (r : ScanRec)
    (hr : r ∈ scanFile lines) :
    (r.snippet ≠ [] ∧ ∃ mline p, lines[r.line_num - 1]? = some mline ∧
      containsSub mline markerTok = true ∧ r.snippet = p ++ mline) ∧
    ((∀ j, j < r.line_num → declRegexAccepts (lines.getD j []) = false) →
      r.snippet = lines.getD (r.line_num - 1) [] ∧ r.decl_name = []) := by
  unfold scanFile at hr
  constructor
  · rcases scan_snippet_shape (List.drop_zero lines).symm (Nat.le_refl 0) hr with
      ⟨mline, p, hget, hc, hsnip⟩
    refine ⟨?_, mline, p, hget, hc, hsnip⟩
    rw [hsnip]
    intro hnil
    rcases List.append_eq_nil.mp hnil with ⟨_, hm⟩
    exact ne_nil_of_containsSub_marker hc hm
  · intro hnone
    exact scan_degenerate (List.drop_zero lines).symm (Nat.le_refl 0)
      (Or.inl ⟨rfl, rfl⟩) hr hnone

/-- Concrete two-line file with a named declaration header, for the C8
witness. -/
def c8LinesA : List (List Char) :=
  readlines ("theorem t (x : Nat) : x = x := by\n  sorry\n".toList)

/-- Its unique scanned record. -/
def c8RecA : ScanRec :=
  ⟨2, "t".toList, "theorem t (x : Nat) : x = x := by\n  sorry\n".toList⟩

/-- Concrete header-less one-line file, for the C8 witness. -/
def c8LinesB : List (List Char) := readlines ("  sorry\n".toList)

/-- Its unique scanned record. -/
def c8RecB : ScanRec := ⟨1, [], "  sorry\n".toList⟩

/-- Witness for C8: both halves of the invariant at concrete scans. -/
theorem snippet_invariant_witness :
    (c8RecA.snippet ≠ [] ∧ ∃ mline p, c8LinesA[c8RecA.line_num - 1]? = some mline ∧
      containsSub mline markerTok = true ∧ c8RecA.snippet = p ++ mline) ∧
    (c8RecB.snippet = c8LinesB.getD (c8RecB.line_num - 1) [] ∧ c8RecB.decl_name = []) := by
  constructor
  · exact (snippet_invariant c8LinesA c8RecA (by decide)).1
  · refine (snippet_invariant c8LinesB c8RecB (by decide)).2 ?_
    intro j hj
    have hlt : j < 1 := hj
    have hj0 : j = 0 := by omega
    subst hj0
    decide

/-- C10: a line matching the declaration-header pattern but yielding no
extractable name still sets the declaration context: a surviving marker after
it (with no further header in between) produces a record whose
`decl_name` is empty while its snippet starts at that header line. -/
theorem nameless_header_sets_context (lines : List (List Char)) (i j : Nat)
    (hdrLine mline : List Char)
    (hgetH : lines[i]? = some hdrLine)
    (hacc : declRegexAccepts hdrLine = true)
    (hname : extractName (pyStrip hdrLine) = [])
    (hij : i < j)
    (hgetM : lines[j]? = some mline)
    (hc : containsSub mline markerTok = true)
    (hk : commentSkip mline = false)
    (hmid : ∀ m, i < m → m ≤ j → declRegexAccepts (lines.getD m []) = false) :
    ∃ r ∈ scanFile lines, r.line_num = j + 1 ∧ r.decl_name = [] ∧
      r.snippet = ((lines.drop i).take (j + 1 - i)).flatten := by
  unfold scanFile
  apply scan_reach _ [] 0 (List.drop_zero lines).symm (Nat.zero_le i) hgetH hacc
  have hnone2 : ∀ m, i + 1 ≤ m → m ≤ j →
      declRegexAccepts (lines.getD m []) = false := by
    intro m h1 h2
    exact hmid m (by omega) h2
  rcases scan_state_run (pyStrip hdrLine) (i + 1) rfl (by omega) hgetM hc hk hnone2 with
    ⟨r, hr, hnum, hname2, hsnip⟩
  refine ⟨r, hr, hnum, ?_, ?_⟩
  · rw [hname2, hname]
  · rw [hsnip, if_pos (Nat.succ_pos i)]
    simp only [Nat.add_sub_cancel]

/-- Concrete file for the C10 witness: an `instance` header with no
extractable name, followed by a marker line. -/
def c10Lines : List (List Char) :=
  ["instance : Foo Nat where".toList, "  bar := sorry".toList]

/-- Witness for C10: the nameless `instance` header still anchors the snippet
of the marker record on the next line. -/
theorem nameless_header_sets_context_witness :
    ∃ r ∈ scanFile c10Lines, r.line_num = 2 ∧ r.decl_name = [] ∧
      r.snippet = ((c10Lines.drop 0).take 2).flatten := by
  apply nameless_header_sets_context c10Lines 0 1 ("instance : Foo Nat where".toList)
    ("  bar := sorry".toList) rfl (by decide) (by decide) (by omega) rfl
    (by decide) (by decide)
  intro m h1 h2
  have hm : m = 1 := by omega
  subst hm
  decide

/-! ## Claim theorems: the Import Resolver -/

/-- C5: dependency packages shadow the project root.  When the first segment
of the import is a key of the package map and the dependency directory
contains the relative file, resolution returns the dependency file — even if
the same relative path also exists under the project root. -/
theorem import_resolution_precedence (fs : FileSys) (repo_root : List Char)
    (p0 : List Char) (rest : List (List Char)) (pkgDir : List Char)
    (hpkg : packageLookup (buildPackageMap fs repo_root) p0 = some pkgDir)
    (hdep : pathExists fs (osJoin2 pkgDir (relativeImportPath (p0 :: rest))) = true)
    (hroot : pathExists fs (osJoin2 repo_root (relativeImportPath (p0 :: rest))) = true) :
    resolveImport fs repo_root (buildPackageMap fs repo_root) (p0 :: rest)
      = some (osJoin2 pkgDir (relativeImportPath (p0 :: rest))) := by
  unfold resolveImport
  simp only [hpkg, hdep, if_true]

/-- Concrete file system for the C5 witness: the same relative path
`Mathlib/Foo.lean` exists both in the dependency package and at the project
root. -/
def fs5 : FileSys :=
  ⟨[("/r/.lake/packages/mathlib/Mathlib/Foo.lean".toList, "P".toList),
    ("/r/Mathlib/Foo.lean".toList, "Q".toList)], ["mathlib".toList]⟩

/-- Witness for C5: `import Mathlib.Foo` resolves to the dependency copy, not
the project-root copy. -/
theorem import_resolution_precedence_witness :
    resolveImport fs5 "/r".toList (buildPackageMap fs5 "/r".toList)
      ["Mathlib".toList, "Foo".toList]
      = some ("/r/.lake/packages/mathlib/Mathlib/Foo.lean".toList) := by
  rw [import_resolution_precedence fs5 "/r".toList "Mathlib".toList ["Foo".toList]
    ("/r/.lake/packages/mathlib".toList) (by decide) (by decide) (by decide)]
  decide

/-- The contribution of a line whose import resolves and reads: the source's
size gate (src/issues.py:100-103) in one equation. -/
theorem importContribution_resolved (fs : FileSys) (repo_root : List Char)
    (web_search : Bool) (pkgMap : List (List Char × List Char))
    (line ipath full_path content : List Char)
    (hparse : parseImportLine line = some ipath)
    (hres : resolveImport fs repo_root pkgMap (pySplit ipath '.') = some full_path)
    (hread : readFs fs full_path = some content) :
    importContribution fs repo_root web_search pkgMap line
      = if content.length < MAX_IMPORT_FILE_SIZE then
          "\n---\n-- Content from: ".toList ++ ipath ++ "\n---\n".toList ++ content
        else [] := by
  unfold importContribution
  simp only [hparse, hres, hread]

/-- C7 (amended): the size gate compares the CHARACTER (code point) count of
the decoded import file against the fixed 25000 threshold — strictly below:
append the labeled content; at or above: contribute nothing (a warning is
printed; resolution of other imports continues since each line contributes
independently). -/
theorem import_size_threshold_chars (fs : FileSys) (repo_root : List Char)
    (web_search : Bool) (pkgMap : List (List Char × List Char))
    (line ipath full_path content : List Char)
    (hparse : parseImportLine line = some ipath)
    (hres : resolveImport fs repo_root pkgMap (pySplit ipath '.') = some full_path)
    (hread : readFs fs full_path = some content) :
    (content.length < MAX_IMPORT_FILE_SIZE →
      importContribution fs repo_root web_search pkgMap line
        = "\n---\n-- Content from: ".toList ++ ipath ++ "\n---\n".toList ++ content) ∧
    (MAX_IMPORT_FILE_SIZE ≤ content.length →
      importContribution fs repo_root web_search pkgMap line = []) := by
  constructor
  · intro hlt
    rw [importContribution_resolved fs repo_root web_search pkgMap line ipath
      full_path content hparse hres hread, if_pos hlt]
  · intro hge
    rw [importContribution_resolved fs repo_root web_search pkgMap line ipath
      full_path content hparse hres hread, if_neg (Nat.not_lt.mpr hge)]

/-- Small file system for the C7 witness (below-threshold import). -/
def fs8 : FileSys := ⟨[("/r/Foo.lean".toList, "abc".toList)], []⟩

/-- File system with an import of exactly 25000 characters, for the C7
witness (at-threshold import). -/
def fs9 : FileSys := ⟨[("/r/Foo.lean".toList, List.replicate 25000 'a')], []⟩

/-- Witness for C7: a 3-character import is appended with its label; a
25000-character import contributes nothing. -/
theorem import_size_threshold_chars_witness :
    importContribution fs8 "/r".toList false (buildPackageMap fs8 "/r".toList)
        ("import Foo".toList)
      = "\n---\n-- Content from: ".toList ++ "Foo".toList ++ "\n---\n".toList
          ++ "abc".toList ∧
    importContribution fs9 "/r".toList false (buildPackageMap fs9 "/r".toList)
        ("import Foo".toList) = [] := by
  constructor
  · exact (import_size_threshold_chars fs8 "/r".toList false
      (buildPackageMap fs8 "/r".toList) ("import Foo".toList) "Foo".toList
      ("/r/Foo.lean".toList) "abc".toList rfl rfl rfl).1 (by decide)
  · refine (import_size_threshold_chars fs9 "/r".toList false
      (buildPackageMap fs9 "/r".toList) ("import Foo".toList) "Foo".toList
      ("/r/Foo.lean".toList) (List.replicate 25000 'a') rfl rfl rfl).2 ?_
    rw [List.length_replicate]
    exact Nat.le_refl _

/-- A four-byte-per-character import file: 6250 code points, 25000 UTF-8
bytes. -/
def bigImport : List Char := List.replicate 6250 '𝔸'

/-- File system holding `bigImport` as the single resolvable import. -/
def fs7 : FileSys := ⟨[("/r/Foo.lean".toList, bigImport)], []⟩

/-- C7 counterexample: an import file whose BYTE size is 25000 — at the
claimed byte threshold, so the claim says its content is excluded — is
nevertheless appended in full, because the source compares `len(content)`
(6250 code points) rather than the byte size. -/
theorem import_size_threshold_cex :
    utf8ByteLen bigImport = 25000 ∧
    find_and_read_imports ("import Foo".toList) "/r".toList false fs7
      = "\n---\n-- Content from: ".toList ++ "Foo".toList ++ "\n---\n".toList
          ++ bigImport := by
  constructor
  · unfold bigImport utf8ByteLen
    rw [List.map_replicate, List.sum_replicate]
    rw [show charUtf8Bytes '𝔸' = 4 from by decide]
    simp only [smul_eq_mul]
  · unfold find_and_read_imports
    rw [show splitlines ("import Foo".toList) = [("import Foo".toList)] from by decide]
    simp only [List.map_cons, List.map_nil, List.flatten_cons, List.flatten_nil,
      List.append_nil]
    rw [importContribution_resolved fs7 "/r".toList false
      (buildPackageMap fs7 "/r".toList) ("import Foo".toList) "Foo".toList
      ("/r/Foo.lean".toList) bigImport rfl rfl rfl]
    rw [if_pos ?hlt]
    case hlt =>
      unfold bigImport MAX_IMPORT_FILE_SIZE
      rw [List.length_replicate]
      norm_num

/-! ## Claim theorems: the Tree Walker and the Resolver invocation pattern -/

/-- C4 (amended): the walker invokes the Resolver once per RECORD (the call
of src/issues.py:281 sits inside the per-marker block), not once per file;
since every invocation for a file receives identical arguments, all records
of a file carry the same `imports_context` and the same `full_file_text`. -/
theorem resolver_once_per_record (fs : FileSys) (target_repo_path : List Char)
    (web_search : Bool) (path content : List Char) :
    (processFile fs target_repo_path web_search path content).2
      = (processFile fs target_repo_path web_search path content).1.length ∧
    ∀ r ∈ (processFile fs target_repo_path web_search path content).1,
      r.imports_context = find_and_read_imports content target_repo_path web_search fs ∧
      r.full_content = content := by
  constructor
  · unfold processFile
    rw [List.length_map]
  · intro r hr
    unfold processFile at hr
    rcases List.mem_map.mp hr with ⟨a, _, rfl⟩
    exact ⟨rfl, rfl⟩

/-- Content with one file and two marker lines, for C4. -/
def c4content : List Char :=
  "theorem a : True := by\n sorry\ntheorem b : True := by\n sorry\n".toList

/-- Empty file system (no dependency packages, no other files). -/
def fs4 : FileSys := ⟨[], []⟩

/-- C4 counterexample: one eligible file with two marker records makes the
walker invoke the Resolver twice — not "exactly once for that file" as the
claim states (the two invocation-per-record counts coincide with the record
count, not the file count). -/
theorem resolver_per_file_cex :
    (find_all_sorries fs4 "/r".toList false
        [⟨"A.lean".toList, Except.ok c4content⟩]).map (fun pr => pr.2)
      = Except.ok 2 ∧
    (find_all_sorries fs4 "/r".toList false
        [⟨"A.lean".toList, Except.ok c4content⟩]).map (fun pr => pr.1.length)
      = Except.ok 2 := by
  constructor
  · rfl
  · rfl

/-- First record of the two-marker file, for the C4 witness. -/
def c4Rec1 : ObligationInfo :=
  ⟨"A.lean".toList, 2, "a".toList, "theorem a : True := by\n sorry\n".toList,
   c4content, []⟩

/-- Witness for C4 (amended): at the concrete two-marker file, the invocation
count equals the record count, and a concrete record of the file carries
exactly the file-level `imports_context`/`full_file_text`. -/
theorem resolver_once_per_record_witness :
    (processFile fs4 "/r".toList false "A.lean".toList c4content).2
      = (processFile fs4 "/r".toList false "A.lean".toList c4content).1.length ∧
    (c4Rec1.imports_context = find_and_read_imports c4content "/r".toList false fs4 ∧
      c4Rec1.full_content = c4content) := by
  refine ⟨(resolver_once_per_record fs4 "/r".toList false "A.lean".toList c4content).1, ?_⟩
  exact (resolver_once_per_record fs4 "/r".toList false "A.lean".toList c4content).2
    c4Rec1 (by decide)

/-! ## Claim theorems: Publisher and Tree Walker failure handling -/

/-- C1 (code bug): the existence check never sees the derived title.  The
query string is constant in `title` (the f-string of src/issues.py:206 escapes
the braces, embedding the literal text brace-title-brace instead of the
value), so with a store already holding the exact derived title of the
record, a second run still creates a duplicate instead of skipping. -/
theorem publisher_duplicate_check_broken :
    (∀ t1 t2 repo : List Char, searchQuery t1 repo = searchQuery t2 repo) ∧
    create_github_issue [] (mkTitle "foo".toList "A.lean".toList 2) []
        "o/r".toList [] true true
      = (PubOutcome.created, [mkTitle "foo".toList "A.lean".toList 2]) ∧
    create_github_issue [mkTitle "foo".toList "A.lean".toList 2]
        (mkTitle "foo".toList "A.lean".toList 2) [] "o/r".toList [] true true
      = (PubOutcome.created,
         [mkTitle "foo".toList "A.lean".toList 2,
          mkTitle "foo".toList "A.lean".toList 2]) := by
  refine ⟨fun t1 t2 repo => rfl, ?_, ?_⟩
  · decide
  · decide

/-- C2 (code bug): a failing existence check does not proceed to creation —
it kills the whole run.  `run_command` exits the process on any command
failure, so the first record's failing `gh issue list` aborts everything,
including all remaining records (first conjunct).  A failing `gh issue
create`, in contrast, really is per-record: the loop continues (second
conjunct). -/
theorem duplicate_check_failure_exits :
    publish_loop [] "o/r".toList
        [("A".toList, false, true), ("B".toList, true, true)]
      = Except.error () ∧
    publish_loop [] "o/r".toList
        [("A".toList, true, false), ("B".toList, true, true)]
      = Except.ok ([PubOutcome.createFailed, PubOutcome.created], ["B".toList]) := by
  constructor
  · rfl
  · rfl

/-- Readable one-marker file, for C3. -/
def c3content : List Char := "def a : Nat := sorry\n".toList

/-- C3 (code bug): an unreadable file aborts the whole walk.  With the same
readable file before and after an unreadable one, the walk returns the read
error and NO records at all (first conjunct), although the readable file
alone yields its record (second conjunct): the `open`/`readlines` of
src/issues.py:257-258 has no handler, so the exception propagates out of
`find_all_sorries`. -/
theorem unreadable_file_aborts_walk :
    find_all_sorries fs4 "/r".toList false
        [⟨"A.lean".toList, Except.ok c3content⟩,
         ⟨"B.lean".toList, Except.error "boom".toList⟩,
         ⟨"C.lean".toList, Except.ok c3content⟩]
      = Except.error ("boom".toList) ∧
    find_all_sorries fs4 "/r".toList false [⟨"A.lean".toList, Except.ok c3content⟩]
      = Except.ok ([⟨"A.lean".toList, 1, "a".toList, c3content, c3content, []⟩], 1) := by
  constructor
  · rfl
  · rfl
